import Mathlib

/-!
# Verification of the lifejs `memories` plugin orchestrator

Shallow embedding of `src/packages/life/plugins/memories/memories.ts` and
`src/packages/life/plugins/memories/definition.ts`.

Messages are opaque to the orchestrator; they are carried here as `String`.
JavaScript `Map`s are embedded as association lists with the usual first-match
`get` and replace-or-append `set`; the JavaScript `Set` of processed request
ids is embedded as a list queried by membership.  Provider compute functions
(`getOutput` when it is a function) may throw; a throw is embedded as
`Except.error ()`.  `Date.now()` values are `Nat` parameters captured exactly
where the source captures them.  The completion order of the concurrently
launched provider tasks is an explicit `List Nat` parameter (the order in
which the per-index async tasks finish); theorems quantify over it.
-/

namespace Memories

/-- JavaScript `Map.get`: first entry with the given key. -/
def mapGet {κ α : Type} [DecidableEq κ] : List (κ × α) → κ → Option α
  | [], _ => none
  | (k, v) :: rest, key => if k = key then some v else mapGet rest key

/-- JavaScript `Map.set`: replace the entry in place, or append a new one. -/
def mapSet {κ α : Type} [DecidableEq κ] : List (κ × α) → κ → α → List (κ × α)
  | [], key, v => [(key, v)]
  | (k, w) :: rest, key, v =>
      if k = key then (key, v) :: rest else (k, w) :: mapSet rest key v

/-- The two execution modes of `memoryConfigSchema`'s `behavior` field. -/
inductive Behavior where
  | blocking
  | nonBlocking
deriving DecidableEq, Repr

/-- The `getOutput` field of a `MemoryDefinition`: absent, a plain message
array, or a compute function (which may throw). -/
inductive GetOutput where
  | undef
  | arr (msgs : List String)
  | fn (f : List String → Except Unit (List String))

/-- `_MemoryDependenciesDefinition` from `definition.ts` (store/collection
names only; unused by the orchestrator). -/
structure MemoryDependencies where
  stores : List String
  collections : List String

/-- Output side of `memoryConfigSchema` (`behavior` is present after parse). -/
structure MemoryConfigOut where
  behavior : Behavior
deriving DecidableEq, Repr

/-- Input side of `memoryConfigSchema` (`behavior` optional before parse). -/
structure MemoryConfigIn where
  behavior : Option Behavior

/-- `memoryConfigSchema.parse`: `z.enum(["blocking","non-blocking"]).default("blocking")`
fills a missing `behavior` with `blocking`. -/
def memoryConfigSchemaParse (c : MemoryConfigIn) : MemoryConfigOut :=
  { behavior := c.behavior.getD .blocking }

/-- A `MemoryDefinition` (the payload a `MemoryDefinitionBuilder` holds). -/
structure MemoryItem where
  name : String
  config : MemoryConfigOut
  getOutput : GetOutput
  dependencies : MemoryDependencies

/-- `defineMemory(name)`: fresh builder; config is
`memoryConfigSchema.parse({})`, i.e. behavior defaults to blocking. -/
def defineMemory (name : String) : MemoryItem :=
  { name := name
    config := memoryConfigSchemaParse { behavior := none }
    getOutput := .undef
    dependencies := { stores := [], collections := [] } }

/-- The builder's `.config(config)` method: parse and replace the config. -/
def builderConfig (item : MemoryItem) (c : MemoryConfigIn) : MemoryItem :=
  { item with config := memoryConfigSchemaParse c }

/-- The builder's `.getOutput(params)` method. -/
def builderGetOutput (item : MemoryItem) (g : GetOutput) : MemoryItem :=
  { item with getOutput := g }

/-- `buildMemory(memory, messages)` from `memories.ts`: call `getOutput` if it
is a function (propagating a throw), otherwise return `getOutput ?? []`. -/
def buildMemory (memory : MemoryItem) (messages : List String) :
    Except Unit (List String) :=
  match memory.getOutput with
  | .fn f => f messages
  | .arr msgs => .ok msgs
  | .undef => .ok []

/-- Modelled from the spec: `stableObjectSHA256` lives in
`@/shared/stable-sha256`, which is not part of the sources under `src/`.
Section 4.1 of the spec gives its contract: a deterministic, order-sensitive
content fingerprint of the ordered message history, injective on reorderings.
It is modelled as a length-delimited serialization of the history, which is
deterministic and injective. -/
def stableObjectSHA256 (messages : List String) : List (Nat × String) :=
  messages.map (fun s => (s.length, s))

/-- Cache keys are fingerprints of message histories. -/
abbrev Fingerprint := List (Nat × String)

/-- A `computedMemoriesCache` entry: `{ hash, memories }`. -/
structure CachedMemories where
  hash : Fingerprint
  memories : List String
deriving DecidableEq, Repr

/-- The plugin context declared in `.context({...})`. -/
structure Ctx where
  memoriesLastResults : List (String × List String)
  memoriesLastTimestamp : List (String × Nat)
  processedRequestsIds : List String
  computedMemoriesCache : List (Fingerprint × CachedMemories)
deriving DecidableEq, Repr

/-- The initial context: all four containers empty. -/
def emptyCtx : Ctx :=
  { memoriesLastResults := []
    memoriesLastTimestamp := []
    processedRequestsIds := []
    computedMemoriesCache := [] }

/-- The `store-memory-result` effect: overwrite both maps only when the
incoming timestamp is `≥` the stored one (absent entries count as `0`). -/
def storeMemoryResult (ctx : Ctx) (name : String) (messages : List String)
    (timestamp : Nat) : Ctx :=
  if (mapGet ctx.memoriesLastTimestamp name).getD 0 ≤ timestamp then
    { ctx with
      memoriesLastResults := mapSet ctx.memoriesLastResults name messages
      memoriesLastTimestamp := mapSet ctx.memoriesLastTimestamp name timestamp }
  else ctx

/-- The events the plugin emits (plus the final re-emitted core event). -/
inductive MemEvent where
  | buildRequest (requestId : String) (messages : List String)
  | buildResponse (requestId : String) (messages : List String)
  | memoryResult (name : String) (messages : List String) (timestamp : Nat)
  | agentResourcesResponse (requestId : String) (messages : List String)
deriving DecidableEq, Repr

/-- The `store-memory-result` effect as an event handler. -/
def applyStoreEffect (ctx : Ctx) : MemEvent → Ctx
  | .memoryResult name messages timestamp =>
      storeMemoryResult ctx name messages timestamp
  | _ => ctx

/-- The state change of the `re-emit-build-response` effect: record the
request id as processed (the re-emission itself appears as an
`agentResourcesResponse` event). -/
def applyBuildResponseEffect (ctx : Ctx) (requestId : String) : Ctx :=
  { ctx with processedRequestsIds := requestId :: ctx.processedRequestsIds }

/-- Instrumentation: the provider compute functions invoked by one
`buildMemory` call (only a function-valued `getOutput` is a compute call). -/
def callsOf (item : MemoryItem) : List String :=
  match item.getOutput with
  | .fn _ => [item.name]
  | _ => []

/-- Running state of the blocking fan-out (`build-memories`, lines 121-137):
the threaded context (the `store-memory-result` effect runs on each emitted
`memory-result`), the `blockingResults` index map, the emitted events, the
instrumented compute calls, and whether some task threw (which makes
`Promise.all` reject). -/
structure FanOut where
  ctx : Ctx
  results : List (Nat × List String)
  events : List MemEvent
  calls : List String
  failed : Bool

/-- One blocking task (one index of `config.items.map(async (item, index) => ...)`).
Non-blocking indices return immediately; a blocking index computes
`buildMemory`, records its result under its index and emits a
`memory-result` carrying the shared fan-out timestamp — or, if the compute
throws, marks the fan-out failed (there is no catch on this path). -/
def blockingTaskStep (items : List MemoryItem) (history : List String)
    (ts : Nat) (acc : FanOut) (i : Nat) : FanOut :=
  match items.get? i with
  | none => acc
  | some item =>
      if item.config.behavior = .blocking then
        match buildMemory item history with
        | .ok msgs =>
            { ctx := storeMemoryResult acc.ctx item.name msgs ts
              results := mapSet acc.results i msgs
              events := acc.events ++ [.memoryResult item.name msgs ts]
              calls := acc.calls ++ callsOf item
              failed := acc.failed }
        | .error _ => { acc with calls := acc.calls ++ callsOf item, failed := true }
      else acc

/-- The blocking fan-out: the per-index tasks run concurrently and finish in
some order `order` (a list of indices); each finished task contributes via
`blockingTaskStep`. -/
def blockingFanOut (items : List MemoryItem) (ctx : Ctx) (history : List String)
    (ts : Nat) (order : List Nat) : FanOut :=
  order.foldl (blockingTaskStep items history ts)
    { ctx := ctx, results := [], events := [], calls := [], failed := false }

/-- One merge segment (lines 140-151): index `i` contributes the fresh
blocking result for a blocking item, or the stored `memoriesLastResults`
entry for a non-blocking item (empty when absent in either case). -/
def mergeSegment (items : List MemoryItem) (ctx : Ctx)
    (results : List (Nat × List String)) (i : Nat) : List String :=
  match items.get? i with
  | none => []
  | some item =>
      if item.config.behavior = .blocking then
        (mapGet results i).getD []
      else
        (mapGet ctx.memoriesLastResults item.name).getD []

/-- The merge loop `for (let i = 0; i < config.items.length; i++)`. -/
def mergeMemories (items : List MemoryItem) (ctx : Ctx)
    (results : List (Nat × List String)) : List String :=
  (List.range items.length).foldl
    (fun acc i => acc ++ mergeSegment items ctx results i) []

/-- One descriptor's contribution under the spec's merge rule (section 4.4
step 4): a blocking descriptor contributes its freshly computed messages
(empty if it failed), a non-blocking descriptor contributes the most recent
`ResultStore` value under its name (empty if none). -/
def specSegment (ctx : Ctx) (history : List String) (item : MemoryItem) :
    List String :=
  match item.config.behavior with
  | .blocking =>
      match buildMemory item history with
      | .ok m => m
      | .error _ => []
  | .nonBlocking => (mapGet ctx.memoriesLastResults item.name).getD []

/-- The spec's merge rule, stated in the spec's own words: concatenate the
per-descriptor contributions in registry declared order.  Used as the
reference side of the refinement claims. -/
def specMergedOutput (items : List MemoryItem) (ctx : Ctx)
    (history : List String) : List String :=
  items.foldl (fun acc item => acc ++ specSegment ctx history item) []

/-- A successful round of the `build-memories` service for one request. -/
structure BuildOutcome where
  ctx : Ctx
  events : List MemEvent
  merged : List String
  blockingCalls : List String
deriving DecidableEq, Repr

/-- The merged messages an uncached round computes: the merge loop over the
fan-out's context and collected results. -/
def uncachedMerged (items : List MemoryItem) (ctx : Ctx) (history : List String)
    (ts : Nat) (order : List Nat) : List String :=
  mergeMemories items (blockingFanOut items ctx history ts order).ctx
    (blockingFanOut items ctx history ts order).results

/-- The `build-memories` service body for one `build-request` (lines 97-168),
with the `store-memory-result` and `re-emit-build-response` effects applied
at each emission.  On a cache hit the cached merged messages are re-emitted
and no provider is computed.  Otherwise the blocking fan-out runs; if some
blocking compute throws, `await Promise.all` rejects with nothing to catch
it, so the service dies before merging, caching or responding — the error
value carries the context and events of the tasks that had completed. -/
def buildMemoriesStep (items : List MemoryItem) (ctx : Ctx) (requestId : String)
    (history : List String) (ts : Nat) (order : List Nat) :
    Except (Ctx × List MemEvent) BuildOutcome :=
  match mapGet ctx.computedMemoriesCache (stableObjectSHA256 history) with
  | some cached =>
      .ok { ctx := applyBuildResponseEffect ctx requestId
            events := [.buildResponse requestId cached.memories,
                       .agentResourcesResponse requestId cached.memories]
            merged := cached.memories
            blockingCalls := [] }
  | none =>
      if (blockingFanOut items ctx history ts order).failed then
        .error ((blockingFanOut items ctx history ts order).ctx,
                (blockingFanOut items ctx history ts order).events)
      else
        .ok { ctx := applyBuildResponseEffect
                { (blockingFanOut items ctx history ts order).ctx with
                  computedMemoriesCache :=
                    mapSet
                      (blockingFanOut items ctx history ts order).ctx.computedMemoriesCache
                      (stableObjectSHA256 history)
                      { hash := stableObjectSHA256 history
                        memories := uncachedMerged items ctx history ts order } }
                requestId
              events := (blockingFanOut items ctx history ts order).events ++
                [.buildResponse requestId (uncachedMerged items ctx history ts order),
                 .agentResourcesResponse requestId
                   (uncachedMerged items ctx history ts order)]
              merged := uncachedMerged items ctx history ts order
              blockingCalls := (blockingFanOut items ctx history ts order).calls }

/-- Outcome of the non-blocking fan-out (`build-non-blocking-memories`). -/
structure NBOutcome where
  events : List MemEvent
  calls : List String
deriving DecidableEq, Repr

/-- One non-blocking fire-and-forget task: a non-blocking item computes
`buildMemory` and emits a `memory-result` on success; a throw is caught and
logged, emitting nothing. Blocking indices are skipped. -/
def nonBlockingTaskStep (items : List MemoryItem) (history : List String)
    (ts : Nat) (acc : NBOutcome) (i : Nat) : NBOutcome :=
  match items.get? i with
  | none => acc
  | some item =>
      if item.config.behavior = .nonBlocking then
        match buildMemory item history with
        | .ok msgs =>
            { events := acc.events ++ [.memoryResult item.name msgs ts]
              calls := acc.calls ++ callsOf item }
        | .error _ => { acc with calls := acc.calls ++ callsOf item }
      else acc

/-- The `build-non-blocking-memories` service body for one `build-request`
(lines 73-93): fire every non-blocking item, never await, catch and drop
failures. It performs no cache check. `order` is the completion order of
the fired tasks. -/
def nonBlockingFanOut (items : List MemoryItem) (history : List String)
    (ts : Nat) (order : List Nat) : NBOutcome :=
  order.foldl (nonBlockingTaskStep items history ts) { events := [], calls := [] }

/-- Outcome of one full round of the plugin for one upstream event. -/
structure RoundOutcome where
  ctx : Ctx
  events : List MemEvent
  blockingCalls : List String
  nbCalls : List String
deriving DecidableEq, Repr

/-- One full round: the `intercept-core-resources-response` interceptor
followed by both services and the effects.  An already-processed request id
makes the interceptor return before dropping or emitting anything, so the
plugin performs no action.  Otherwise the original event is dropped, a
`build-request` is emitted and both services process it; the fire-and-forget
non-blocking completions are delivered (and stored) after the blocking
cascade, matching the spec's end-to-end example.  `ts` and `tsNB` are the
`Date.now()` captures of the two services; `order` and `orderNB` the two
completion orders. -/
def processUpstream (items : List MemoryItem) (ctx : Ctx) (requestId : String)
    (history : List String) (ts tsNB : Nat) (order orderNB : List Nat) :
    Except (Ctx × List MemEvent) RoundOutcome :=
  if requestId ∈ ctx.processedRequestsIds then
    .ok { ctx := ctx, events := [], blockingCalls := [], nbCalls := [] }
  else
    match buildMemoriesStep items ctx requestId history ts order with
    | .error p => .error p
    | .ok out =>
        .ok { ctx := (nonBlockingFanOut items history tsNB orderNB).events.foldl
                applyStoreEffect out.ctx
              events := .buildRequest requestId history :: out.events ++
                (nonBlockingFanOut items history tsNB orderNB).events
              blockingCalls := out.blockingCalls
              nbCalls := (nonBlockingFanOut items history tsNB orderNB).calls }

/-- Is this event the externally visible re-emitted core response? -/
def isExternalEvent : MemEvent → Bool
  | .agentResourcesResponse _ _ => true
  | _ => false

/-- Number of externally visible `agent.resources-response` emissions. -/
def countExternal (evs : List MemEvent) : Nat :=
  (evs.filter isExternalEvent).length

/-- Concatenation of the segments contributed by each element of a list
(a recursion-friendly view of the merge folds). -/
def catMap {α : Type} (g : α → List String) : List α → List String
  | [] => []
  | x :: xs => g x ++ catMap g xs

/-- Fold a sequence of `memory-result` payloads `(name, messages, timestamp)`
through the `store-memory-result` effect. -/
def storeFold (evts : List (String × List String × Nat)) (c : Ctx) : Ctx :=
  evts.foldl (fun cc e => storeMemoryResult cc e.1 e.2.1 e.2.2) c

/-! ## Concrete registries and states used to instantiate the theorems -/

/-- The spec's end-to-end example: a blocking provider computing `["F1"]`. -/
def factsItem : MemoryItem :=
  builderGetOutput (defineMemory "facts") (.fn (fun _ => .ok ["F1"]))

/-- The spec's end-to-end example: a non-blocking provider computing `["R1"]`. -/
def recentItem : MemoryItem :=
  builderGetOutput
    (builderConfig (defineMemory "recent") { behavior := some .nonBlocking })
    (.fn (fun _ => .ok ["R1"]))

/-- Registry `[facts (blocking), recent (non-blocking)]`. -/
def exItems : List MemoryItem := [factsItem, recentItem]

/-- A blocking provider whose compute function throws. -/
def throwingItem : MemoryItem :=
  builderGetOutput (defineMemory "broken") (.fn (fun _ => .error ()))

/-- Outcome of the first `exItems` round on history `["U1"]` (request `r1`,
timestamp 1, completion order `[0, 1]`). -/
def exOut : BuildOutcome :=
  { ctx := { memoriesLastResults := [("facts", ["F1"])]
             memoriesLastTimestamp := [("facts", 1)]
             processedRequestsIds := ["r1"]
             computedMemoriesCache :=
               [([(2, "U1")], { hash := [(2, "U1")], memories := ["F1"] })] }
    events := [.memoryResult "facts" ["F1"] 1,
               .buildResponse "r1" ["F1"],
               .agentResourcesResponse "r1" ["F1"]]
    merged := ["F1"]
    blockingCalls := ["facts"] }

/-- Context after one successful round of the empty registry on request
`r1` with empty history. -/
def c3Ctx : Ctx :=
  { memoriesLastResults := []
    memoriesLastTimestamp := []
    processedRequestsIds := ["r1"]
    computedMemoriesCache := [([], { hash := [], memories := [] })] }

/-- Round outcome of the empty registry on request `r1`, empty history. -/
def c3Out : RoundOutcome :=
  { ctx := c3Ctx
    events := [.buildRequest "r1" [], .buildResponse "r1" [],
               .agentResourcesResponse "r1" []]
    blockingCalls := []
    nbCalls := [] }

/-- A context whose cache already holds the merged result for `["U1"]`. -/
def c4Ctx : Ctx :=
  { memoriesLastResults := []
    memoriesLastTimestamp := []
    processedRequestsIds := []
    computedMemoriesCache :=
      [([(2, "U1")], { hash := [(2, "U1")], memories := ["F1"] })] }

/-- Round outcome of `[recentItem]` on the pre-cached context `c4Ctx`. -/
def c4Out : RoundOutcome :=
  { ctx := { memoriesLastResults := [("recent", ["R1"])]
             memoriesLastTimestamp := [("recent", 6)]
             processedRequestsIds := ["r2"]
             computedMemoriesCache :=
               [([(2, "U1")], { hash := [(2, "U1")], memories := ["F1"] })] }
    events := [.buildRequest "r2" ["U1"], .buildResponse "r2" ["F1"],
               .agentResourcesResponse "r2" ["F1"],
               .memoryResult "recent" ["R1"] 6]
    blockingCalls := []
    nbCalls := ["recent"] }

/-- A context already holding `("X", ["old"], 5)`. -/
def c6Ctx : Ctx :=
  { memoriesLastResults := [("X", ["old"])]
    memoriesLastTimestamp := [("X", 5)]
    processedRequestsIds := []
    computedMemoriesCache := [] }

/-- A context holding a stale stored result under the name `facts`. -/
def c9Ctx : Ctx :=
  { memoriesLastResults := [("facts", ["stale"])]
    memoriesLastTimestamp := [("facts", 0)]
    processedRequestsIds := []
    computedMemoriesCache := [] }

/-! ## Association-list map lemmas -/

@[simp] theorem mapGet_set_self {κ α : Type} [DecidableEq κ]
    (m : List (κ × α)) (k : κ) (v : α) : mapGet (mapSet m k v) k = some v := by
  induction m with
  | nil => simp [mapGet, mapSet]
  | cons p rest ih =>
      obtain ⟨k', w⟩ := p
      by_cases h : k' = k
      · simp [mapGet, mapSet, h]
      · simp [mapGet, mapSet, h, ih]

theorem mapGet_set_ne {κ α : Type} [DecidableEq κ]
    (m : List (κ × α)) (k k' : κ) (v : α) (h : k' ≠ k) :
    mapGet (mapSet m k v) k' = mapGet m k' := by
  have hkk : k ≠ k' := Ne.symm h
  induction m with
  | nil => simp [mapGet, mapSet, hkk]
  | cons p rest ih =>
      obtain ⟨k'', w⟩ := p
      by_cases h2 : k'' = k
      · subst h2
        simp [mapGet, mapSet, hkk]
      · simp [mapGet, mapSet, h2, ih]

/-! ## `storeMemoryResult` lemmas -/

@[simp] theorem store_cache (ctx : Ctx) (n : String) (m : List String) (t : Nat) :
    (storeMemoryResult ctx n m t).computedMemoriesCache = ctx.computedMemoriesCache := by
  unfold storeMemoryResult
  split <;> rfl

@[simp] theorem store_processed (ctx : Ctx) (n : String) (m : List String) (t : Nat) :
    (storeMemoryResult ctx n m t).processedRequestsIds = ctx.processedRequestsIds := by
  unfold storeMemoryResult
  split <;> rfl

theorem store_results_ne (ctx : Ctx) (n n' : String) (m : List String) (t : Nat)
    (h : n' ≠ n) :
    mapGet (storeMemoryResult ctx n m t).memoriesLastResults n' =
      mapGet ctx.memoriesLastResults n' := by
  unfold storeMemoryResult
  split
  · exact mapGet_set_ne _ _ _ _ h
  · rfl

@[simp] theorem applyStoreEffect_cache (ctx : Ctx) (e : MemEvent) :
    (applyStoreEffect ctx e).computedMemoriesCache = ctx.computedMemoriesCache := by
  unfold applyStoreEffect
  split <;> simp

@[simp] theorem applyStoreEffect_processed (ctx : Ctx) (e : MemEvent) :
    (applyStoreEffect ctx e).processedRequestsIds = ctx.processedRequestsIds := by
  unfold applyStoreEffect
  split <;> simp

@[simp] theorem foldl_store_processed (evs : List MemEvent) (ctx : Ctx) :
    (evs.foldl applyStoreEffect ctx).processedRequestsIds = ctx.processedRequestsIds := by
  induction evs generalizing ctx with
  | nil => rfl
  | cons e rest ih => simp [List.foldl_cons, ih]

@[simp] theorem foldl_store_cache (evs : List MemEvent) (ctx : Ctx) :
    (evs.foldl applyStoreEffect ctx).computedMemoriesCache =
      ctx.computedMemoriesCache := by
  induction evs generalizing ctx with
  | nil => rfl
  | cons e rest ih => simp [List.foldl_cons, ih]

/-! ## Concatenated segments -/

theorem foldl_append_eq_catMap {α : Type} (g : α → List String) (l : List α)
    (acc : List String) :
    l.foldl (fun a x => a ++ g x) acc = acc ++ catMap g l := by
  induction l generalizing acc with
  | nil => simp [catMap]
  | cons x xs ih => simp [catMap, List.foldl_cons, ih, List.append_assoc]

theorem catMap_map {α β : Type} (f : α → β) (g : β → List String) (l : List α) :
    catMap g (l.map f) = catMap (fun a => g (f a)) l := by
  induction l with
  | nil => rfl
  | cons x xs ih => simp [catMap, ih]

theorem catMap_congr {α : Type} (g h : α → List String) (l : List α)
    (hgh : ∀ x ∈ l, g x = h x) : catMap g l = catMap h l := by
  induction l with
  | nil => rfl
  | cons x xs ih =>
      simp only [catMap]
      rw [hgh x (List.mem_cons_self x xs), ih (fun y hy => hgh y (List.mem_cons_of_mem x hy))]

/-- Iterating `0 ≤ i < items.length` and reading `items.get?` matches
iterating the items themselves when the segments agree pointwise. -/
theorem catMap_range_eq {α : Type} (items : List α) (g : Nat → List String)
    (h : α → List String) (hg : ∀ i x, items.get? i = some x → g i = h x) :
    catMap g (List.range items.length) = catMap h items := by
  induction items generalizing g with
  | nil => rfl
  | cons x xs ih =>
      rw [List.length_cons, List.range_succ_eq_map]
      simp only [catMap, catMap_map]
      rw [hg 0 x rfl, ih (fun i => g (i + 1)) (fun i y hy => hg (i + 1) y hy)]

/-! ## Blocking fan-out lemmas -/

theorem blockingTaskStep_results_ne (items : List MemoryItem) (history : List String)
    (ts : Nat) (acc : FanOut) (j i : Nat) (hij : i ≠ j) :
    mapGet (blockingTaskStep items history ts acc j).results i =
      mapGet acc.results i := by
  unfold blockingTaskStep
  cases hg : items.get? j with
  | none => rfl
  | some item =>
      by_cases hb : item.config.behavior = .blocking
      · cases hbm : buildMemory item history with
        | ok msgs => simp [hb, hbm, mapGet_set_ne _ _ _ _ hij]
        | error e => simp [hb, hbm]
      · simp [hb]

/-- After the fan-out, a blocking index whose compute succeeded holds exactly
its freshly computed messages, whatever the completion order was. -/
theorem fanOut_results_of_ok (items : List MemoryItem) (history : List String)
    (ts : Nat) (order : List Nat) (acc : FanOut) (i : Nat) (item : MemoryItem)
    (m : List String) (hget : items.get? i = some item)
    (hb : item.config.behavior = .blocking)
    (hok : buildMemory item history = .ok m) :
    mapGet (order.foldl (blockingTaskStep items history ts) acc).results i =
      if i ∈ order then some m else mapGet acc.results i := by
  induction order generalizing acc with
  | nil => simp
  | cons j rest ih =>
      rw [List.foldl_cons, ih]
      by_cases hmem : i ∈ rest
      · simp [hmem, List.mem_cons]
      · by_cases hij : i = j
        · subst hij
          rw [if_neg hmem, if_pos (List.mem_cons_self i rest)]
          have hstep : blockingTaskStep items history ts acc i =
              { ctx := storeMemoryResult acc.ctx item.name m ts
                results := mapSet acc.results i m
                events := acc.events ++ [.memoryResult item.name m ts]
                calls := acc.calls ++ callsOf item
                failed := acc.failed } := by
            simp only [blockingTaskStep, hget, if_pos hb, hok]
          rw [hstep]
          exact mapGet_set_self acc.results i m
        · have hni : i ∉ j :: rest := by
            intro hcon
            rcases List.mem_cons.mp hcon with hcon | hcon
            · exact hij hcon
            · exact hmem hcon
          rw [if_neg hmem, if_neg hni,
              blockingTaskStep_results_ne items history ts acc j i hij]

theorem blockingTaskStep_ctx_results_ne (items : List MemoryItem)
    (history : List String) (ts : Nat) (acc : FanOut) (j : Nat) (n : String)
    (hn : ∀ y ∈ items, y.config.behavior = .blocking → y.name ≠ n) :
    mapGet (blockingTaskStep items history ts acc j).ctx.memoriesLastResults n =
      mapGet acc.ctx.memoriesLastResults n := by
  unfold blockingTaskStep
  cases hg : items.get? j with
  | none => rfl
  | some item =>
      by_cases hb : item.config.behavior = .blocking
      · cases hbm : buildMemory item history with
        | ok msgs =>
            simp [hb, hbm,
              store_results_ne _ _ _ _ _ (Ne.symm (hn item (List.get?_mem hg) hb))]
        | error e => simp [hb, hbm]
      · simp [hb]

/-- The fan-out never touches `memoriesLastResults` entries of names that no
blocking item bears — in particular those of the non-blocking items when
registry names are unique. -/
theorem fanOut_ctx_results_ne (items : List MemoryItem) (history : List String)
    (ts : Nat) (order : List Nat) (acc : FanOut) (n : String)
    (hn : ∀ y ∈ items, y.config.behavior = .blocking → y.name ≠ n) :
    mapGet (order.foldl (blockingTaskStep items history ts) acc).ctx.memoriesLastResults n =
      mapGet acc.ctx.memoriesLastResults n := by
  induction order generalizing acc with
  | nil => rfl
  | cons j rest ih =>
      rw [List.foldl_cons, ih]
      exact blockingTaskStep_ctx_results_ne items history ts acc j n hn

/-- If every blocking compute succeeds, no task marks the fan-out failed. -/
theorem fanOut_failed (items : List MemoryItem) (history : List String)
    (ts : Nat) (order : List Nat) (acc : FanOut)
    (hok : ∀ y ∈ items, y.config.behavior = .blocking →
      ∃ m, buildMemory y history = .ok m) :
    (order.foldl (blockingTaskStep items history ts) acc).failed = acc.failed := by
  induction order generalizing acc with
  | nil => rfl
  | cons j rest ih =>
      rw [List.foldl_cons, ih]
      unfold blockingTaskStep
      cases hg : items.get? j with
      | none => rfl
      | some item =>
          by_cases hb : item.config.behavior = .blocking
          · obtain ⟨m, hm⟩ := hok item (List.get?_mem hg) hb
            simp [hb, hm]
          · simp [hb]

theorem blockingTaskStep_events (items : List MemoryItem) (history : List String)
    (ts : Nat) (acc : FanOut) (j : Nat) (e : MemEvent)
    (he : e ∈ (blockingTaskStep items history ts acc j).events) :
    e ∈ acc.events ∨ ∃ n m, e = .memoryResult n m ts := by
  cases hg : items.get? j with
  | none =>
      simp only [blockingTaskStep, hg] at he
      exact Or.inl he
  | some item =>
      simp only [blockingTaskStep, hg] at he
      by_cases hb : item.config.behavior = .blocking
      · cases hbm : buildMemory item history with
        | ok msgs =>
            rw [if_pos hb, hbm] at he
            simp only [List.mem_append, List.mem_singleton] at he
            rcases he with he | he
            · exact Or.inl he
            · exact Or.inr ⟨item.name, msgs, he⟩
        | error err =>
            rw [if_pos hb, hbm] at he
            exact Or.inl he
      · rw [if_neg hb] at he
        exact Or.inl he

/-- Every event the blocking fan-out emits is a `memory-result` carrying the
single timestamp captured at fan-out start. -/
theorem fanOut_events (items : List MemoryItem) (history : List String)
    (ts : Nat) (order : List Nat) (acc : FanOut) (e : MemEvent)
    (he : e ∈ (order.foldl (blockingTaskStep items history ts) acc).events) :
    e ∈ acc.events ∨ ∃ n m, e = .memoryResult n m ts := by
  induction order generalizing acc with
  | nil => exact Or.inl he
  | cons j rest ih =>
      rw [List.foldl_cons] at he
      rcases ih (blockingTaskStep items history ts acc j) he with h | h
      · exact blockingTaskStep_events items history ts acc j e h
      · exact Or.inr h

/-! ## Non-blocking fan-out lemmas -/

theorem nbTaskStep_events (items : List MemoryItem) (history : List String)
    (ts : Nat) (acc : NBOutcome) (j : Nat) (e : MemEvent)
    (he : e ∈ (nonBlockingTaskStep items history ts acc j).events) :
    e ∈ acc.events ∨ ∃ n m, e = .memoryResult n m ts := by
  cases hg : items.get? j with
  | none =>
      simp only [nonBlockingTaskStep, hg] at he
      exact Or.inl he
  | some item =>
      simp only [nonBlockingTaskStep, hg] at he
      by_cases hb : item.config.behavior = .nonBlocking
      · cases hbm : buildMemory item history with
        | ok msgs =>
            rw [if_pos hb, hbm] at he
            simp only [List.mem_append, List.mem_singleton] at he
            rcases he with he | he
            · exact Or.inl he
            · exact Or.inr ⟨item.name, msgs, he⟩
        | error err =>
            rw [if_pos hb, hbm] at he
            exact Or.inl he
      · rw [if_neg hb] at he
        exact Or.inl he

theorem nbFanOut_events (items : List MemoryItem) (history : List String)
    (ts : Nat) (order : List Nat) (acc : NBOutcome) (e : MemEvent)
    (he : e ∈ (order.foldl (nonBlockingTaskStep items history ts) acc).events) :
    e ∈ acc.events ∨ ∃ n m, e = .memoryResult n m ts := by
  induction order generalizing acc with
  | nil => exact Or.inl he
  | cons j rest ih =>
      rw [List.foldl_cons] at he
      rcases ih (nonBlockingTaskStep items history ts acc j) he with h | h
      · exact nbTaskStep_events items history ts acc j e h
      · exact Or.inr h

/-- Every event the non-blocking service emits is a `memory-result` carrying
the timestamp captured when the `build-request` was dequeued. -/
theorem nonBlockingFanOut_events (items : List MemoryItem) (history : List String)
    (ts : Nat) (order : List Nat) (e : MemEvent)
    (he : e ∈ (nonBlockingFanOut items history ts order).events) :
    ∃ n m, e = .memoryResult n m ts := by
  unfold nonBlockingFanOut at he
  rcases nbFanOut_events items history ts order _ e he with hc | hc
  · cases hc
  · exact hc

/-- `memory-result` events are not externally visible; a list of them
contributes nothing to `countExternal`. -/
theorem filter_external_of_memoryResults (evs : List MemEvent)
    (h : ∀ e ∈ evs, ∃ n m t, e = MemEvent.memoryResult n m t) :
    evs.filter isExternalEvent = [] := by
  rw [List.filter_eq_nil_iff]
  intro e he
  obtain ⟨n, m, t, rfl⟩ := h e he
  simp [isExternalEvent]

/-! ## The merge refines the spec's merge rule -/

/-- Unique registry names mean no blocking item shares a non-blocking
item's name. -/
theorem no_blocking_name_clash (items : List MemoryItem) (x : MemoryItem)
    (hnames : items.Pairwise (fun a b => a.name ≠ b.name))
    (hx : x ∈ items) (hxb : x.config.behavior = .nonBlocking) :
    ∀ y ∈ items, y.config.behavior = .blocking → y.name ≠ x.name := by
  intro y hy hyb
  have hxy : y ≠ x := by
    intro hcon
    rw [hcon, hxb] at hyb
    exact absurd hyb (by simp)
  exact List.Pairwise.forall (fun a b hab => Ne.symm hab) hnames hy hx hxy

/-- The implementation's merge (registry order over fresh blocking results
and the threaded store) equals the spec's merge over the pre-request store,
for every completion order that contains every index. -/
theorem merge_eq_spec (items : List MemoryItem) (ctx : Ctx)
    (history : List String) (ts : Nat) (order : List Nat)
    (hnames : items.Pairwise (fun a b => a.name ≠ b.name))
    (hok : ∀ y ∈ items, y.config.behavior = .blocking →
      ∃ m, buildMemory y history = .ok m)
    (horder : ∀ i, i < items.length → i ∈ order) :
    mergeMemories items (blockingFanOut items ctx history ts order).ctx
        (blockingFanOut items ctx history ts order).results =
      specMergedOutput items ctx history := by
  unfold mergeMemories specMergedOutput
  rw [foldl_append_eq_catMap, foldl_append_eq_catMap, List.nil_append,
      List.nil_append]
  apply catMap_range_eq
  intro i x hget
  have hxmem : x ∈ items := List.get?_mem hget
  have hlt : i < items.length := by
    rw [List.get?_eq_some] at hget
    exact hget.1
  unfold mergeSegment specSegment
  cases hb : x.config.behavior with
  | blocking =>
      obtain ⟨m, hm⟩ := hok x hxmem hb
      have hres : mapGet (blockingFanOut items ctx history ts order).results i =
          some m := by
        unfold blockingFanOut
        rw [fanOut_results_of_ok items history ts order _ i x m hget hb hm,
            if_pos (horder i hlt)]
      simp only [hget, hb, hres, hm]
      simp
  | nonBlocking =>
      have hctx :
          mapGet (blockingFanOut items ctx history ts order).ctx.memoriesLastResults
              x.name = mapGet ctx.memoriesLastResults x.name := by
        unfold blockingFanOut
        exact fanOut_ctx_results_ne items history ts order _ x.name
          (no_blocking_name_clash items x hnames hxmem hb)
      simp only [hget, hb, hctx]
      simp

/-! ## `buildMemoriesStep` path lemmas -/

/-- Cache hit: the cached merged messages are re-emitted, nothing computed. -/
theorem buildMemoriesStep_cached (items : List MemoryItem) (ctx : Ctx)
    (rid : String) (history : List String) (ts : Nat) (order : List Nat)
    (cached : CachedMemories)
    (hc : mapGet ctx.computedMemoriesCache (stableObjectSHA256 history) =
      some cached) :
    buildMemoriesStep items ctx rid history ts order =
      .ok { ctx := applyBuildResponseEffect ctx rid
            events := [.buildResponse rid cached.memories,
                       .agentResourcesResponse rid cached.memories]
            merged := cached.memories
            blockingCalls := [] } := by
  simp only [buildMemoriesStep, hc]

/-- Cache miss with no blocking failure: fan out, merge, cache, respond. -/
theorem buildMemoriesStep_uncached (items : List MemoryItem) (ctx : Ctx)
    (rid : String) (history : List String) (ts : Nat) (order : List Nat)
    (hnc : mapGet ctx.computedMemoriesCache (stableObjectSHA256 history) = none)
    (hfail : (blockingFanOut items ctx history ts order).failed = false) :
    buildMemoriesStep items ctx rid history ts order =
      .ok { ctx := applyBuildResponseEffect
              { (blockingFanOut items ctx history ts order).ctx with
                computedMemoriesCache :=
                  mapSet
                    (blockingFanOut items ctx history ts order).ctx.computedMemoriesCache
                    (stableObjectSHA256 history)
                    { hash := stableObjectSHA256 history
                      memories := uncachedMerged items ctx history ts order } } rid
            events := (blockingFanOut items ctx history ts order).events ++
              [.buildResponse rid (uncachedMerged items ctx history ts order),
               .agentResourcesResponse rid (uncachedMerged items ctx history ts order)]
            merged := uncachedMerged items ctx history ts order
            blockingCalls := (blockingFanOut items ctx history ts order).calls } := by
  simp only [buildMemoriesStep, hnc, hfail, Bool.false_eq_true, if_false]

/-- A successful round always marks the request id processed. -/
theorem buildMemoriesStep_ok_processed (items : List MemoryItem) (ctx : Ctx)
    (rid : String) (history : List String) (ts : Nat) (order : List Nat)
    (out : BuildOutcome)
    (h : buildMemoriesStep items ctx rid history ts order = .ok out) :
    rid ∈ out.ctx.processedRequestsIds := by
  unfold buildMemoriesStep at h
  split at h
  · cases h
    simp [applyBuildResponseEffect]
  · split at h
    · cases h
    · cases h
      simp [applyBuildResponseEffect]

/-- A successful round emits exactly one externally visible response. -/
theorem buildMemoriesStep_countExternal (items : List MemoryItem) (ctx : Ctx)
    (rid : String) (history : List String) (ts : Nat) (order : List Nat)
    (out : BuildOutcome)
    (h : buildMemoriesStep items ctx rid history ts order = .ok out) :
    countExternal out.events = 1 := by
  unfold buildMemoriesStep at h
  split at h
  · cases h
    simp [countExternal, isExternalEvent]
  · split at h
    · cases h
    · cases h
      simp only [countExternal, List.filter_append]
      rw [filter_external_of_memoryResults _
        (fun e he => by
          rcases fanOut_events items history ts order _ e he with hc | hc
          · cases hc
          · obtain ⟨n, m, hc⟩ := hc
            exact ⟨n, m, ts, hc⟩)]
      simp [isExternalEvent]

/-- A `memory-result` emitted by the `build-memories` service carries the
fan-out timestamp. -/
theorem buildMemoriesStep_memoryResult_ts (items : List MemoryItem) (ctx : Ctx)
    (rid : String) (history : List String) (ts : Nat) (order : List Nat)
    (out : BuildOutcome) (n : String) (m : List String) (t : Nat)
    (h : buildMemoriesStep items ctx rid history ts order = .ok out)
    (he : MemEvent.memoryResult n m t ∈ out.events) : t = ts := by
  unfold buildMemoriesStep at h
  split at h
  · cases h
    simp at he
  · split at h
    · cases h
    · cases h
      simp only [List.mem_append] at he
      rcases he with he | he
      · rcases fanOut_events items history ts order _ _ he with hc | hc
        · cases hc
        · obtain ⟨n', m', hc⟩ := hc
          cases hc
          rfl
      · simp at he

/-! ## `processUpstream` lemmas -/

/-- An already-processed request id is ignored entirely: no drop, no
`build-request`, no emission, no state change. -/
theorem processUpstream_dup (items : List MemoryItem) (ctx : Ctx)
    (rid : String) (history : List String) (ts tsNB : Nat)
    (order orderNB : List Nat) (hdup : rid ∈ ctx.processedRequestsIds) :
    processUpstream items ctx rid history ts tsNB order orderNB =
      .ok { ctx := ctx, events := [], blockingCalls := [], nbCalls := [] } := by
  simp only [processUpstream, if_pos hdup]

/-- A successful round emits exactly one externally visible response and
marks the request id processed. -/
theorem processUpstream_ok_inv (items : List MemoryItem) (ctx : Ctx)
    (rid : String) (history : List String) (ts tsNB : Nat)
    (order orderNB : List Nat) (out : RoundOutcome)
    (hnew : rid ∉ ctx.processedRequestsIds)
    (h : processUpstream items ctx rid history ts tsNB order orderNB = .ok out) :
    countExternal out.events = 1 ∧ rid ∈ out.ctx.processedRequestsIds := by
  unfold processUpstream at h
  rw [if_neg hnew] at h
  split at h
  · cases h
  · rename_i bout hstep
    cases h
    constructor
    · have hnb : (nonBlockingFanOut items history tsNB orderNB).events.filter
          isExternalEvent = [] :=
        filter_external_of_memoryResults _ (fun e he => by
          obtain ⟨n, m, hc⟩ :=
            nonBlockingFanOut_events items history tsNB orderNB e he
          exact ⟨n, m, tsNB, hc⟩)
      have h1 : countExternal bout.events = 1 :=
        buildMemoriesStep_countExternal items ctx rid history ts order bout hstep
      simp only [countExternal] at h1 ⊢
      simp [List.filter_cons, List.filter_append, isExternalEvent, hnb, h1]
    · simp only [foldl_store_processed]
      exact buildMemoriesStep_ok_processed items ctx rid history ts order bout hstep

/-! ## The claims -/

/-- C1: For every build-request whose history is not already cached, the
merged output emitted in the build-response is exactly the concatenation, in
registry (`config.items`) declared order, of: for each blocking provider its
freshly computed messages for this request (empty if it produced none), and
for each non-blocking provider the messages currently stored in the
ResultStore under its name (empty if no entry exists yet) — independent of
the order in which the blocking computations complete (the conclusion does
not mention `order`, which ranges over every completion order covering all
indices).  Registry names are unique (the spec's ProviderDescriptor
invariant) and the blocking computes succeed (the failure path is the
subject of C2). -/
theorem c1_merged_output_is_spec_merge (items : List MemoryItem) (ctx : Ctx)
    (rid : String) (history : List String) (ts : Nat) (order : List Nat)
    (hnames : items.Pairwise (fun a b => a.name ≠ b.name))
    (hnc : mapGet ctx.computedMemoriesCache (stableObjectSHA256 history) = none)
    (hok : ∀ y ∈ items, y.config.behavior = .blocking →
      ∃ m, buildMemory y history = .ok m)
    (horder : ∀ i, i < items.length → i ∈ order) :
    ∃ out, buildMemoriesStep items ctx rid history ts order = .ok out ∧
      out.merged = specMergedOutput items ctx history ∧
      MemEvent.buildResponse rid (specMergedOutput items ctx history) ∈
        out.events := by
  have hfail : (blockingFanOut items ctx history ts order).failed = false := by
    unfold blockingFanOut
    exact fanOut_failed items history ts order _ hok
  have hm : uncachedMerged items ctx history ts order =
      specMergedOutput items ctx history := by
    unfold uncachedMerged
    exact merge_eq_spec items ctx history ts order hnames hok horder
  refine ⟨_, buildMemoriesStep_uncached items ctx rid history ts order hnc hfail,
    hm, ?_⟩
  rw [← hm]
  simp

/-- Witness for C1 on the spec's example registry: an uncached request with
history `["U1"]` merges to the spec's merge rule result for any covering
completion order (here `[1, 0]`, the reverse of declared order). -/
theorem c1_witness :
    ∃ out, buildMemoriesStep exItems emptyCtx "r1" ["U1"] 1 [1, 0] = .ok out ∧
      out.merged = specMergedOutput exItems emptyCtx ["U1"] ∧
      MemEvent.buildResponse "r1" (specMergedOutput exItems emptyCtx ["U1"]) ∈
        out.events :=
  c1_merged_output_is_spec_merge exItems emptyCtx "r1" ["U1"] 1 [1, 0]
    (by
      refine List.Pairwise.cons ?_ (List.pairwise_singleton _ _)
      intro b hb
      rcases List.mem_singleton.mp hb with rfl
      decide)
    rfl
    (by
      intro y hy hb
      rcases List.mem_cons.mp hy with rfl | hy
      · exact ⟨["F1"], rfl⟩
      · rcases List.mem_singleton.mp hy with rfl
        exact absurd hb (by decide))
    (by decide)

/-- C2 (code behaviour at the failing input): a registry whose single
blocking provider's compute function throws makes the `build-memories`
service die — `buildMemoriesStep` returns the rejection of `Promise.all`
(there is no catch on the blocking path, unlike the non-blocking service),
having emitted no event at all: no build-response is ever emitted for the
request, contradicting the claim that the response is still emitted with an
empty segment. -/
theorem c2_blocking_throw_emits_no_response :
    buildMemoriesStep [throwingItem] emptyCtx "r1" ["U1"] 0 [0] =
      .error (emptyCtx, []) := by
  rfl

/-- C3: A request id already in `processedRequestsIds` is ignored entirely on
a later arrival — the round performs no action at all (no build-request
event, no re-emission, no state change) — and a fresh id processed to
success is marked processed with exactly one externally visible
`agent.resources-response` emission, so submitting the same id twice (the
second submission after the first completed) yields exactly one visible
emission: one from the first round, none from the second. -/
theorem c3_duplicate_request_ids_are_ignored (items : List MemoryItem)
    (ctx ctxDup : Ctx) (rid : String) (history : List String)
    (ts tsNB ts2 tsNB2 : Nat) (order orderNB order2 orderNB2 : List Nat)
    (out : RoundOutcome)
    (hdup : rid ∈ ctxDup.processedRequestsIds)
    (hnew : rid ∉ ctx.processedRequestsIds)
    (hrun : processUpstream items ctx rid history ts tsNB order orderNB =
      .ok out) :
    processUpstream items ctxDup rid history ts2 tsNB2 order2 orderNB2 =
      .ok { ctx := ctxDup, events := [], blockingCalls := [], nbCalls := [] }
    ∧ countExternal out.events = 1
    ∧ rid ∈ out.ctx.processedRequestsIds
    ∧ processUpstream items out.ctx rid history ts2 tsNB2 order2 orderNB2 =
      .ok { ctx := out.ctx, events := [], blockingCalls := [], nbCalls := [] } := by
  obtain ⟨hcount, hproc⟩ := processUpstream_ok_inv items ctx rid history ts tsNB
    order orderNB out hnew hrun
  exact ⟨processUpstream_dup items ctxDup rid history ts2 tsNB2 order2 orderNB2 hdup,
    hcount, hproc,
    processUpstream_dup items out.ctx rid history ts2 tsNB2 order2 orderNB2 hproc⟩

/-- Witness for C3: concrete double submission of request `r1`. -/
theorem c3_witness :
    processUpstream [] c3Ctx "r1" [] 7 8 [] [] =
      .ok { ctx := c3Ctx, events := [], blockingCalls := [], nbCalls := [] }
    ∧ countExternal c3Out.events = 1
    ∧ "r1" ∈ c3Out.ctx.processedRequestsIds
    ∧ processUpstream [] c3Out.ctx "r1" [] 7 8 [] [] =
      .ok { ctx := c3Out.ctx, events := [], blockingCalls := [], nbCalls := [] } :=
  c3_duplicate_request_ids_are_ignored [] emptyCtx c3Ctx "r1" [] 0 0 7 8 [] [] [] []
    c3Out (by decide) (by decide) (by rfl)

/-- C4 (amended): For every build-request whose fingerprint is cached, the
round emits a build-response carrying the cached merged messages and invokes
no blocking provider's compute function — blocking computation is skipped;
the separately running non-blocking service still fires its computes
(C4's counterexample), so not all provider computation is skipped. -/
theorem c4_cache_hit_skips_blocking_computes (items : List MemoryItem)
    (ctx : Ctx) (rid : String) (history : List String) (ts tsNB : Nat)
    (order orderNB : List Nat) (cached : CachedMemories) (out : RoundOutcome)
    (hc : mapGet ctx.computedMemoriesCache (stableObjectSHA256 history) =
      some cached)
    (hnew : rid ∉ ctx.processedRequestsIds)
    (hrun : processUpstream items ctx rid history ts tsNB order orderNB =
      .ok out) :
    out.blockingCalls = [] ∧
      MemEvent.buildResponse rid cached.memories ∈ out.events := by
  simp only [processUpstream, if_neg hnew,
    buildMemoriesStep_cached items ctx rid history ts order cached hc] at hrun
  cases hrun
  refine ⟨rfl, ?_⟩
  simp

/-- Counterexample to C4 as stated: at a concrete cache-hit input the
non-blocking provider's compute function is still invoked (the non-blocking
service performs no cache check), so "all provider computation is skipped"
is false. -/
theorem c4_counterexample_nonblocking_still_computes :
    (mapGet c4Ctx.computedMemoriesCache (stableObjectSHA256 ["U1"])).isSome = true
    ∧ (processUpstream [recentItem] c4Ctx "r2" ["U1"] 5 6 [0] [0]).toOption.map
        RoundOutcome.nbCalls = some ["recent"] := by
  constructor
  · rfl
  · rfl

/-- Witness for C4 (amended) at the cache-hit input: blocking calls are
empty and the cached response is emitted. -/
theorem c4_witness :
    processUpstream [recentItem] c4Ctx "r2" ["U1"] 5 6 [0] [0] = .ok c4Out
    ∧ c4Out.blockingCalls = [] ∧
      MemEvent.buildResponse "r2" ["F1"] ∈ c4Out.events :=
  ⟨rfl, c4_cache_hit_skips_blocking_computes [recentItem] c4Ctx "r2" ["U1"]
    5 6 [0] [0] { hash := [(2, "U1")], memories := ["F1"] } c4Out rfl
    (by decide) rfl⟩

/-! ## Store guard lemmas -/

theorem store_overwrites (ctx : Ctx) (n : String) (m : List String) (t : Nat)
    (h : (mapGet ctx.memoriesLastTimestamp n).getD 0 ≤ t) :
    mapGet (storeMemoryResult ctx n m t).memoriesLastResults n = some m ∧
    mapGet (storeMemoryResult ctx n m t).memoriesLastTimestamp n = some t := by
  unfold storeMemoryResult
  rw [if_pos h]
  exact ⟨mapGet_set_self _ _ _, mapGet_set_self _ _ _⟩

theorem store_noop (ctx : Ctx) (n : String) (m : List String) (t : Nat)
    (h : ¬ (mapGet ctx.memoriesLastTimestamp n).getD 0 ≤ t) :
    storeMemoryResult ctx n m t = ctx := by
  unfold storeMemoryResult
  rw [if_neg h]

/-- A successful round leaves its merged messages in the cache under the
history's fingerprint. -/
theorem buildMemoriesStep_ok_cache (items : List MemoryItem) (ctx : Ctx)
    (rid : String) (history : List String) (ts : Nat) (order : List Nat)
    (out : BuildOutcome)
    (h : buildMemoriesStep items ctx rid history ts order = .ok out) :
    ∃ c, mapGet out.ctx.computedMemoriesCache (stableObjectSHA256 history) =
        some c ∧ c.memories = out.merged := by
  unfold buildMemoriesStep at h
  split at h
  · rename_i cached hc
    cases h
    exact ⟨cached, by simpa [applyBuildResponseEffect] using hc, rfl⟩
  · split at h
    · cases h
    · cases h
      refine ⟨{ hash := stableObjectSHA256 history
                memories := uncachedMerged items ctx history ts order }, ?_, rfl⟩
      simp [applyBuildResponseEffect]

/-- C5: Once a cache entry has been written for a fingerprint, a later
ResultStore update (a non-blocking memory-result arriving afterwards) does
not invalidate or change it: the store effect leaves the cache untouched
(while recording the new result), and a second request with the same history
still returns the merged messages cached by the first round — which are the
round-one messages, computed before the new result was stored — with no
blocking provider re-invoked. -/
theorem c5_cache_survives_result_store (items : List MemoryItem) (ctx : Ctx)
    (rid rid2 : String) (history : List String) (ts ts2 : Nat)
    (order order2 : List Nat) (n : String) (msgs : List String) (t : Nat)
    (out : BuildOutcome)
    (hrun : buildMemoriesStep items ctx rid history ts order = .ok out)
    (hts : (mapGet out.ctx.memoriesLastTimestamp n).getD 0 ≤ t) :
    (storeMemoryResult out.ctx n msgs t).computedMemoriesCache =
      out.ctx.computedMemoriesCache
    ∧ mapGet (storeMemoryResult out.ctx n msgs t).memoriesLastResults n =
      some msgs
    ∧ ∃ out2, buildMemoriesStep items (storeMemoryResult out.ctx n msgs t) rid2
        history ts2 order2 = .ok out2 ∧ out2.merged = out.merged ∧
        out2.blockingCalls = [] := by
  obtain ⟨c, hcget, hcmem⟩ :=
    buildMemoriesStep_ok_cache items ctx rid history ts order out hrun
  refine ⟨store_cache _ _ _ _, (store_overwrites out.ctx n msgs t hts).1, ?_⟩
  have hc2 : mapGet (storeMemoryResult out.ctx n msgs t).computedMemoriesCache
      (stableObjectSHA256 history) = some c := by
    rw [store_cache]
    exact hcget
  exact ⟨_, buildMemoriesStep_cached items _ rid2 history ts2 order2 c hc2,
    hcmem, rfl⟩

/-- Witness for C5: the spec's staleness example — after round one on
`["U1"]` the late `("recent", ["R1"], 2)` result is stored, yet a second
identical request still answers round one's `["F1"]`. -/
theorem c5_witness :
    (storeMemoryResult exOut.ctx "recent" ["R1"] 2).computedMemoriesCache =
      exOut.ctx.computedMemoriesCache
    ∧ mapGet (storeMemoryResult exOut.ctx "recent" ["R1"] 2).memoriesLastResults
        "recent" = some ["R1"]
    ∧ ∃ out2, buildMemoriesStep exItems
        (storeMemoryResult exOut.ctx "recent" ["R1"] 2) "r2" ["U1"] 5 [0, 1] =
        .ok out2 ∧ out2.merged = exOut.merged ∧ out2.blockingCalls = [] :=
  c5_cache_survives_result_store exItems emptyCtx "r1" "r2" ["U1"] 1 5
    [0, 1] [0, 1] "recent" ["R1"] 2 exOut (by rfl) (by decide)

/-- C6: `store-memory-result` overwrites only when the incoming timestamp is
`≥` the stored one; two results for the same name with `t1 < t2` leave the
`t2` payload whichever order they arrive in (given no newer third write is
already stored), and a late arrival older than the stored timestamp is a
no-op. -/
theorem c6_store_is_last_write_wins (ctx : Ctx) (n : String)
    (m1 m2 : List String) (t1 t2 : Nat) (h12 : t1 < t2)
    (hcur : (mapGet ctx.memoriesLastTimestamp n).getD 0 ≤ t2) :
    (mapGet (storeMemoryResult (storeMemoryResult ctx n m1 t1) n m2 t2).memoriesLastResults
        n = some m2
      ∧ mapGet (storeMemoryResult (storeMemoryResult ctx n m1 t1) n m2 t2).memoriesLastTimestamp
        n = some t2)
    ∧ (mapGet (storeMemoryResult (storeMemoryResult ctx n m2 t2) n m1 t1).memoriesLastResults
        n = some m2
      ∧ mapGet (storeMemoryResult (storeMemoryResult ctx n m2 t2) n m1 t1).memoriesLastTimestamp
        n = some t2)
    ∧ ∀ m t t0, mapGet ctx.memoriesLastTimestamp n = some t0 → t < t0 →
        storeMemoryResult ctx n m t = ctx := by
  refine ⟨?_, ?_, ?_⟩
  · by_cases h1 : (mapGet ctx.memoriesLastTimestamp n).getD 0 ≤ t1
    · have hfst := store_overwrites ctx n m1 t1 h1
      refine store_overwrites _ n m2 t2 ?_
      simp only [hfst.2, Option.getD_some]
      exact le_of_lt h12
    · rw [store_noop ctx n m1 t1 h1]
      exact store_overwrites ctx n m2 t2 hcur
  · have hfst := store_overwrites ctx n m2 t2 hcur
    have hno : ¬ (mapGet (storeMemoryResult ctx n m2 t2).memoriesLastTimestamp
        n).getD 0 ≤ t1 := by
      simp only [hfst.2, Option.getD_some]
      exact not_le.mpr h12
    rw [store_noop _ n m1 t1 hno]
    exact hfst
  · intro m t t0 h0 hlt
    apply store_noop
    simp only [h0, Option.getD_some]
    exact not_le.mpr hlt

/-- Witness for C6: both arrival orders of `(["a"],5)` and `(["b"],6)` leave
the `6` payload, and a late `(["z"],3)` is a no-op. -/
theorem c6_witness :
    (mapGet (storeMemoryResult (storeMemoryResult c6Ctx "X" ["a"] 5) "X" ["b"] 6).memoriesLastResults
        "X" = some ["b"]
      ∧ mapGet (storeMemoryResult (storeMemoryResult c6Ctx "X" ["a"] 5) "X" ["b"] 6).memoriesLastTimestamp
        "X" = some 6)
    ∧ (mapGet (storeMemoryResult (storeMemoryResult c6Ctx "X" ["b"] 6) "X" ["a"] 5).memoriesLastResults
        "X" = some ["b"]
      ∧ mapGet (storeMemoryResult (storeMemoryResult c6Ctx "X" ["b"] 6) "X" ["a"] 5).memoriesLastTimestamp
        "X" = some 6)
    ∧ storeMemoryResult c6Ctx "X" ["z"] 3 = c6Ctx := by
  obtain ⟨hA, hB, hC⟩ :=
    c6_store_is_last_write_wins c6Ctx "X" ["a"] ["b"] 5 6 (by decide) (by decide)
  exact ⟨hA, hB, hC ["z"] 3 5 rfl (by decide)⟩

/-- C7: The fingerprint is a deterministic pure function of the history, and
it is order-sensitive: two different histories holding the same messages in
different orders have different fingerprints (spec-modelled: the hash
implementation is not under `src/`; its §4.1 contract is modelled by
`stableObjectSHA256`). -/
theorem c7_fingerprint_deterministic_order_sensitive :
    (∀ H : List String, stableObjectSHA256 H = stableObjectSHA256 H)
    ∧ ∀ H1 H2 : List String, H1.Perm H2 → H1 ≠ H2 →
        stableObjectSHA256 H1 ≠ stableObjectSHA256 H2 := by
  refine ⟨fun H => rfl, ?_⟩
  intro H1 H2 hperm hne hcon
  apply hne
  have hinj : Function.Injective (fun s : String => (s.length, s)) := by
    intro a b hab
    exact congrArg Prod.snd hab
  exact List.map_injective_iff.mpr hinj hcon

/-- Witness for C7 at the two-message histories in swapped order. -/
theorem c7_witness :
    stableObjectSHA256 ["a"] = stableObjectSHA256 ["a"]
    ∧ stableObjectSHA256 ["a", "b"] ≠ stableObjectSHA256 ["b", "a"] :=
  ⟨c7_fingerprint_deterministic_order_sensitive.1 ["a"],
   c7_fingerprint_deterministic_order_sensitive.2 ["a", "b"] ["b", "a"]
     (by decide) (by decide)⟩

/-- C8: every `memory-result` the blocking fan-out emits for one request
carries the single timestamp captured before the fan-out started, whatever
the completion order of the individual blocking computations. -/
theorem c8_blocking_results_share_timestamp (items : List MemoryItem)
    (ctx : Ctx) (rid : String) (history : List String) (ts : Nat)
    (order : List Nat) (out : BuildOutcome) (n : String) (m : List String)
    (t : Nat)
    (h : buildMemoriesStep items ctx rid history ts order = .ok out)
    (he : MemEvent.memoryResult n m t ∈ out.events) : t = ts :=
  buildMemoriesStep_memoryResult_ts items ctx rid history ts order out n m t h he

/-- Witness for C8 on the example registry's first round. -/
theorem c8_witness :
    buildMemoriesStep exItems emptyCtx "r1" ["U1"] 1 [0, 1] = .ok exOut
    ∧ (1 : Nat) = 1 :=
  ⟨rfl, c8_blocking_results_share_timestamp exItems emptyCtx "r1" ["U1"] 1
    [0, 1] exOut "facts" ["F1"] 1 (by rfl) (by decide)⟩

/-- C9: a memory whose configuration omits `behavior` is blocking:
`defineMemory` parses `{}` to behavior `blocking`, the builder's `.config`
step parses an input without `behavior` to `blocking`, and such a memory's
fresh output — not any stored prior result — is what the merge uses (the
conclusion holds for every context, in particular one holding a stale stored
entry under the provider's name). -/
theorem c9_omitted_behavior_defaults_to_blocking (name : String)
    (f : List String → Except Unit (List String)) (ctx : Ctx) (rid : String)
    (history m : List String) (ts : Nat)
    (hf : f history = .ok m)
    (hnc : mapGet ctx.computedMemoriesCache (stableObjectSHA256 history) = none) :
    (defineMemory name).config.behavior = .blocking
    ∧ (memoryConfigSchemaParse { behavior := none }).behavior = .blocking
    ∧ (builderConfig (defineMemory name) { behavior := none }).config.behavior =
      .blocking
    ∧ ∃ out, buildMemoriesStep [builderGetOutput (defineMemory name) (.fn f)]
        ctx rid history ts [0] = .ok out ∧ out.merged = m := by
  refine ⟨rfl, rfl, rfl, ?_⟩
  have hok : ∀ y ∈ [builderGetOutput (defineMemory name) (.fn f)],
      y.config.behavior = .blocking → ∃ mm, buildMemory y history = .ok mm := by
    intro y hy _
    rcases List.mem_singleton.mp hy with rfl
    exact ⟨m, hf⟩
  have hfail : (blockingFanOut [builderGetOutput (defineMemory name) (.fn f)]
      ctx history ts [0]).failed = false := by
    unfold blockingFanOut
    exact fanOut_failed _ history ts [0] _ hok
  have hmerge : uncachedMerged [builderGetOutput (defineMemory name) (.fn f)]
      ctx history ts [0] =
      specMergedOutput [builderGetOutput (defineMemory name) (.fn f)] ctx history := by
    unfold uncachedMerged
    exact merge_eq_spec _ ctx history ts [0] (List.pairwise_singleton _ _) hok
      (by
        intro i hi
        simp only [List.length_singleton] at hi
        simp only [List.mem_singleton]
        omega)
  refine ⟨_, buildMemoriesStep_uncached _ ctx rid history ts [0] hnc hfail, ?_⟩
  rw [hmerge]
  simp [specMergedOutput, specSegment, builderGetOutput, defineMemory,
    memoryConfigSchemaParse, buildMemory, hf]

/-- Witness for C9: the defaulted (blocking) provider's fresh `["F1"]` is
merged even though a stale `["stale"]` sits in the store under its name. -/
theorem c9_witness :
    (defineMemory "facts").config.behavior = .blocking
    ∧ (memoryConfigSchemaParse { behavior := none }).behavior = .blocking
    ∧ (builderConfig (defineMemory "facts") { behavior := none }).config.behavior =
      .blocking
    ∧ ∃ out, buildMemoriesStep
        [builderGetOutput (defineMemory "facts") (.fn (fun _ => .ok ["F1"]))]
        c9Ctx "r1" ["U1"] 1 [0] = .ok out ∧ out.merged = ["F1"] :=
  c9_omitted_behavior_defaults_to_blocking "facts" (fun _ => .ok ["F1"]) c9Ctx
    "r1" ["U1"] ["F1"] 1 rfl rfl

/-! ## C10: the two ResultStore maps stay consistent -/

theorem storeFold_cons (e : String × List String × Nat)
    (rest : List (String × List String × Nat)) (c : Ctx) :
    storeFold (e :: rest) c = storeFold rest (storeMemoryResult c e.1 e.2.1 e.2.2) :=
  rfl

theorem store_fields_pos (c : Ctx) (n0 : String) (m0 : List String) (t0 : Nat)
    (hg : (mapGet c.memoriesLastTimestamp n0).getD 0 ≤ t0) :
    (storeMemoryResult c n0 m0 t0).memoriesLastResults =
      mapSet c.memoriesLastResults n0 m0
    ∧ (storeMemoryResult c n0 m0 t0).memoriesLastTimestamp =
      mapSet c.memoriesLastTimestamp n0 t0 := by
  unfold storeMemoryResult
  rw [if_pos hg]
  exact ⟨rfl, rfl⟩

/-- The invariant of C10, generalized over a prefix of already-applied
events. -/
theorem store_inv_aux (evts pre : List (String × List String × Nat)) (c : Ctx)
    (hkeys : ∀ n, (mapGet c.memoriesLastResults n).isSome ↔
      (mapGet c.memoriesLastTimestamp n).isSome)
    (hcorr : ∀ n m t, mapGet c.memoriesLastResults n = some m →
      mapGet c.memoriesLastTimestamp n = some t → (n, m, t) ∈ pre) :
    (∀ n, (mapGet (storeFold evts c).memoriesLastResults n).isSome ↔
      (mapGet (storeFold evts c).memoriesLastTimestamp n).isSome)
    ∧ ∀ n m t, mapGet (storeFold evts c).memoriesLastResults n = some m →
        mapGet (storeFold evts c).memoriesLastTimestamp n = some t →
        (n, m, t) ∈ pre ++ evts := by
  induction evts generalizing c pre with
  | nil =>
      simp only [storeFold, List.foldl_nil, List.append_nil]
      exact ⟨hkeys, hcorr⟩
  | cons e rest ih =>
      obtain ⟨n0, m0, t0⟩ := e
      rw [storeFold_cons]
      by_cases hg : (mapGet c.memoriesLastTimestamp n0).getD 0 ≤ t0
      · obtain ⟨hres, hts⟩ := store_fields_pos c n0 m0 t0 hg
        have hkeys' : ∀ n,
            (mapGet (storeMemoryResult c n0 m0 t0).memoriesLastResults n).isSome ↔
            (mapGet (storeMemoryResult c n0 m0 t0).memoriesLastTimestamp n).isSome := by
          intro n
          rw [hres, hts]
          by_cases hn : n = n0
          · subst hn
            simp
          · rw [mapGet_set_ne _ _ _ _ hn, mapGet_set_ne _ _ _ _ hn]
            exact hkeys n
        have hcorr' : ∀ n m t,
            mapGet (storeMemoryResult c n0 m0 t0).memoriesLastResults n = some m →
            mapGet (storeMemoryResult c n0 m0 t0).memoriesLastTimestamp n = some t →
            (n, m, t) ∈ pre ++ [(n0, m0, t0)] := by
          intro n m t hr ht
          rw [hres] at hr
          rw [hts] at ht
          by_cases hn : n = n0
          · subst hn
            rw [mapGet_set_self] at hr ht
            cases hr
            cases ht
            simp
          · rw [mapGet_set_ne _ _ _ _ hn] at hr
            rw [mapGet_set_ne _ _ _ _ hn] at ht
            exact List.mem_append_left _ (hcorr n m t hr ht)
        have h := ih (pre ++ [(n0, m0, t0)]) (storeMemoryResult c n0 m0 t0)
          hkeys' hcorr'
        simpa [List.append_assoc] using h
      · rw [store_noop c n0 m0 t0 hg]
        have h := ih (pre ++ [(n0, m0, t0)]) c
          hkeys
          (fun n m t hr ht => List.mem_append_left _ (hcorr n m t hr ht))
        simpa [List.append_assoc] using h

/-- C10: after any sequence of memory-result events applied to the initially
empty context, the two ResultStore maps have the same key set, and for every
name the stored messages and the stored timestamp come from one and the same
event of the sequence — `store-memory-result` always updates both maps
together. -/
theorem c10_result_store_maps_consistent
    (evts : List (String × List String × Nat)) (n : String) :
    ((mapGet (storeFold evts emptyCtx).memoriesLastResults n).isSome ↔
      (mapGet (storeFold evts emptyCtx).memoriesLastTimestamp n).isSome)
    ∧ ∀ m t, mapGet (storeFold evts emptyCtx).memoriesLastResults n = some m →
        mapGet (storeFold evts emptyCtx).memoriesLastTimestamp n = some t →
        (n, m, t) ∈ evts := by
  have h := store_inv_aux evts [] emptyCtx
    (by intro n'; simp [emptyCtx, mapGet])
    (by intro n' m t hr ht; simp [emptyCtx, mapGet] at hr)
  exact ⟨h.1 n, fun m t hr ht => by simpa using h.2 n m t hr ht⟩

/-- Witness for C10 at the one-event sequence `("X", ["a"], 5)`. -/
theorem c10_witness :
    ((mapGet (storeFold [("X", (["a"], 5))] emptyCtx).memoriesLastResults "X").isSome ↔
      (mapGet (storeFold [("X", (["a"], 5))] emptyCtx).memoriesLastTimestamp "X").isSome)
    ∧ ("X", ["a"], 5) ∈ ([("X", (["a"], 5))] : List (String × List String × Nat)) := by
  obtain ⟨hiff, hcorr⟩ := c10_result_store_maps_consistent [("X", (["a"], 5))] "X"
  exact ⟨hiff, hcorr ["a"] 5 rfl rfl⟩

end Memories
